import Mathlib

/-!
Verification of the `fetch_docs` documentation crawler
(`src/fetch_docs/fetch.py`) against its natural-language specification.

The Python source is shallowly embedded: pure helpers become Lean
functions over `String` / `List Char`; the per-page pipeline threads an
explicit file-system state; the semaphore-guarded fan-out becomes a
step relation on a crawl state.  Standard-library calls
(`urllib.parse.urlparse`, `urllib.parse.urljoin`, `pathlib.Path.name`,
`str.strip`, `str.lower`) are modelled faithfully from their documented
CPython behaviour at the call patterns the source uses; opaque external
collaborators (BeautifulSoup parsing, readabilipy extraction,
markdownify conversion, aiohttp transport) are abstracted as function
parameters or small result types, exactly as the spec designates them
black boxes.
-/

namespace FetchDocs

/-! ### Modelled CPython string/URL helpers -/

/-- Python `str.strip(ch)`: remove every copy of `ch` from both ends. -/
def pyStripChar (ch : Char) (l : List Char) : List Char :=
  ((l.dropWhile (· = ch)).reverse.dropWhile (· = ch)).reverse

/-- Characters allowed in a URL scheme after the first (CPython `scheme_chars`). -/
def isSchemeChar (c : Char) : Bool :=
  c.isAlpha || c.isDigit || c = '+' || c = '-' || c = '.'

/-- Split a character list at the first occurrence of `c`, if any. -/
def splitAtChar (c : Char) : List Char → Option (List Char × List Char)
  | [] => none
  | x :: xs =>
    if x = c then some ([], xs)
    else (splitAtChar c xs).map (fun p => (x :: p.1, p.2))

/-- Everything strictly before the first occurrence of `c` (whole list if absent). -/
def takeBefore (c : Char) (l : List Char) : List Char :=
  l.takeWhile (· ≠ c)

/-- Modelled from CPython `urllib.parse.urlsplit` scheme handling: when the
text before the first `:` is a well-formed scheme, drop `scheme:`. -/
def stripScheme (l : List Char) : List Char :=
  match splitAtChar ':' l with
  | some (pre, rest) =>
    match pre with
    | [] => l
    | c0 :: _ => if c0.isAlpha && pre.all isSchemeChar then rest else l
  | none => l

/-- Lowercased scheme of a URL, when it has one (CPython `urlsplit().scheme`). -/
def schemeOf (url : String) : Option String :=
  match splitAtChar ':' url.toList with
  | some (pre, _) =>
    match pre with
    | [] => none
    | c0 :: _ =>
      if c0.isAlpha && pre.all isSchemeChar then some ⟨pre.map Char.toLower⟩ else none
  | none => none

/-- Modelled from CPython `urlsplit` netloc handling: after the scheme, a
`//` introduces a netloc running up to the next `/`, `?` or `#`; the
returned list is what follows the netloc (delimiter kept). -/
def dropNetloc : List Char → List Char
  | '/' :: '/' :: rest => rest.dropWhile (fun c => c ≠ '/' && c ≠ '?' && c ≠ '#')
  | l => l

/-- Netloc of a URL (CPython `urlsplit().netloc`), empty when absent. -/
def netlocOf (url : String) : String :=
  match stripScheme url.toList with
  | '/' :: '/' :: rest => ⟨rest.takeWhile (fun c => c ≠ '/' && c ≠ '?' && c ≠ '#')⟩
  | _ => ""

/-- Modelled from CPython `urlparse._splitparams`: strip `;params` from the
last path segment, when present. -/
def splitParams (l : List Char) : List Char :=
  if l.contains '/' then
    let rev := l.reverse
    let lastSeg := (rev.takeWhile (· ≠ '/')).reverse
    let pre := ((rev.dropWhile (· ≠ '/'))).reverse
    if lastSeg.contains ';' then pre ++ takeBefore ';' lastSeg else l
  else
    if l.contains ';' then takeBefore ';' l else l

/-- Modelled from CPython `urllib.parse.urlparse(url).path`: strip the
scheme, then the netloc, then the fragment (first `#`), then the query
(first `?`), then the `;params` of the last segment. -/
def urlparsePath (url : String) : String :=
  let l := stripScheme url.toList
  let l := dropNetloc l
  let l := takeBefore '#' l
  let l := takeBefore '?' l
  ⟨splitParams l⟩

/-- Split a character list on every occurrence of `c`; never returns `[]`. -/
def splitChar (c : Char) : List Char → List (List Char)
  | [] => [[]]
  | x :: xs =>
    match splitChar c xs with
    | [] => [[]]
    | h :: t => if x = c then [] :: h :: t else (x :: h) :: t

/-- Modelled from CPython `pathlib.PurePosixPath` parsing: the path's
components, with empty and `.` segments dropped. -/
def pathParts (l : List Char) : List (List Char) :=
  (splitChar '/' l).filter (fun p => p ≠ [] && p ≠ ['.'])

/-- Modelled from CPython `pathlib.Path(path).name`: the final path
component, or the empty string when there is none. -/
def posixName (s : String) : String :=
  match (pathParts s.toList).getLast? with
  | some p => ⟨p⟩
  | none => ""

/-! ### Filename Mapper (`convert_url_to_filename`, fetch.py lines 71-76) -/

/-- The manual root path after stripping slashes. -/
def manualRootStripped : String := "2/the-omarchy-manual"

/-- The walrus expression of fetch.py line 74: `parsed.path.strip('/')`. -/
def strippedPath (url : String) : String :=
  ⟨pyStripChar '/' (urlparsePath url).toList⟩

/-- Embedding of `convert_url_to_filename` (fetch.py lines 71-76):
take `urlparse(url).path`, strip `/` from both ends; empty means no
filename (`None`); the manual root maps to `toc.md`; anything else maps
to `Path(path).name + ".md"`. -/
def convert_url_to_filename (url : String) : Option String :=
  let path := strippedPath url
  if path = "" then none
  else if path = manualRootStripped then some "toc.md"
  else some (posixName path ++ ".md")

/-! ### `urljoin` for root-relative references -/

/-- Modelled from CPython `urljoin` dot-segment resolution for an
absolute-path reference: split on `/`, drop `.` segments, let `..` pop
the previous segment, re-add a trailing empty segment when the path ends
in `.` or `..`, and join (an empty result becomes `/`). -/
def resolveDots (l : List Char) : List Char :=
  let segs := splitChar '/' l
  let resolved := segs.foldl
    (fun acc seg =>
      if seg = ['.', '.'] then acc.dropLast
      else if seg = ['.'] then acc
      else acc ++ [seg]) []
  let resolved :=
    match segs.getLast? with
    | some last =>
      if last = ['.'] || last = ['.', '.'] then resolved ++ [[]] else resolved
    | none => resolved
  let j := List.intercalate ['/'] resolved
  if j = [] then ['/'] else j

/-- Modelled from CPython `urllib.parse.urljoin(base, url)` restricted to
the only call pattern in `_process_elements`: `url` starts with `/`.
A `//`-prefixed url keeps its own netloc and takes the base's scheme;
otherwise the base's scheme and netloc are combined with the url's
dot-resolved path and its query/fragment suffix, per `urlunsplit`. -/
def urljoinRootRel (base url : String) : String :=
  match url.toList with
  | '/' :: '/' :: _ =>
    (match schemeOf base with
     | some s => s ++ ":" ++ url
     | none => url)
  | l =>
    let upath := takeBefore '?' (takeBefore '#' l)
    let suffix : String := ⟨l.drop upath.length⟩
    let newPath := resolveDots upath
    let schemePart : String :=
      match schemeOf base with
      | some s => s ++ ":"
      | none => ""
    let netloc := netlocOf base
    if netloc = "" then
      match newPath with
      | '/' :: '/' :: _ => schemePart ++ "//" ++ (⟨newPath⟩ : String) ++ suffix
      | _ => schemePart ++ (⟨newPath⟩ : String) ++ suffix
    else
      let newPath := if newPath.head? = some '/' then newPath else '/' :: newPath
      schemePart ++ "//" ++ netloc ++ (⟨newPath⟩ : String) ++ suffix

/-! ### HTML Processor (`HTMLProcessor._process_elements`, fetch.py lines 53-68)

BeautifulSoup parsing and serialization are opaque; the processor is
embedded at the level it actually works at: the ordered list of anchor
`href` attributes of the document.  `parse_and_extract` then returns the
set of discovered internal links and the list of rewritten hrefs. -/

/-- The manual root path as it appears in an href. -/
def manualRootHref : String := "/2/the-omarchy-manual"

/-- Python `s.startswith(p)`, over character lists. -/
def pyStartsWith (p s : String) : Bool :=
  p.toList.isPrefixOf s.toList

/-- Python's `needle in hay` on strings, over character lists: `needle`
occurs contiguously somewhere in `hay`. -/
def containsSeq (needle : List Char) : List Char → Bool
  | [] => needle.isEmpty
  | c :: rest => needle.isPrefixOf (c :: rest) || containsSeq needle rest

/-- Predicate from fetch.py line 60: the href starts with `/` and its
lowercasing contains `the-omarchy-manual` as a substring (`str.lower`
modelled as ASCII lowercasing). -/
def isInternal (href : String) : Bool :=
  pyStartsWith "/" href &&
    containsSeq "the-omarchy-manual".toList (href.toList.map Char.toLower)

/-- Rewrite rule of fetch.py lines 64-68 applied inside the internal
branch: the manual root becomes `toc.md`; otherwise the Filename
Mapper's output when derivable; otherwise the href is left as is. -/
def rewriteInternal (href : String) : String :=
  if href = manualRootHref then "toc.md"
  else
    match convert_url_to_filename href with
    | some localFilename => localFilename
    | none => href

/-- Rewrite applied to one anchor by `_process_elements`: internal hrefs
go through `rewriteInternal`, every other href is untouched. -/
def rewriteHref (href : String) : String :=
  if isInternal href then rewriteInternal href else href

/-- Embedding of the anchor loop of `_process_elements` (fetch.py lines
57-68): walk the anchors in order; an internal href is resolved against
the base URL and added to the discovered-link set, then rewritten; all
other hrefs are left unmodified and contribute nothing to the set. -/
def processElements (base : String) : List String → Finset String × List String
  | [] => (∅, [])
  | href :: rest =>
    let r := processElements base rest
    if isInternal href then
      (insert (urljoinRootRel base href) r.1, rewriteInternal href :: r.2)
    else
      (r.1, href :: r.2)

/-- Embedding of `HTMLProcessor.parse_and_extract` over the document's
anchor hrefs: the discovered internal-link set plus the updated hrefs. -/
structure PageData where
  internal_links : Finset String
  updatedHrefs : List String
  deriving DecidableEq

/-- Single-pass extraction (fetch.py lines 39-51) at the anchor level. -/
def parse_and_extract (base : String) (anchors : List String) : PageData :=
  let r := processElements base anchors
  ⟨r.1, r.2⟩

/-! ### Page Fetcher (`download_page_content`, fetch.py lines 79-87)

The aiohttp transport is opaque; what one `session.get` attempt can
produce is modelled as a small result type, and exceptions as `Except`,
so that the `try`/`except` structure of the source is explicit. -/

/-- Connection limits from fetch.py lines 14-16. -/
def MAX_CONCURRENT_CONNECTIONS : Nat := 8

/-- Per-host connection limit from fetch.py line 15, also the size of the
page-download semaphore. -/
def MAX_CONNECTIONS_PER_HOST : Nat := 4

/-- Request timeout in seconds from fetch.py line 16. -/
def REQUEST_TIMEOUT : Nat := 30

/-- What one HTTP GET attempt can deliver: a response with a status code
and a body, a network/connection error, or a timeout. -/
inductive FetchResult where
  | response (status : Nat) (body : String)
  | netError (msg : String)
  | timeout
  deriving DecidableEq

/-- Modelled from aiohttp `response.raise_for_status()`: raise an
exception exactly when the status code is 400 or above. -/
def raise_for_status (status : Nat) : Except String Unit :=
  if 400 ≤ status then Except.error ("HTTP error " ++ toString status) else Except.ok ()

/-- The body of the `try` block of `download_page_content` (fetch.py
lines 82-84): `session.get`, `raise_for_status`, `response.text()`;
network errors and timeouts surface as exceptions of the transport. -/
def fetchText : FetchResult → Except String String
  | FetchResult.response status body =>
    match raise_for_status status with
    | Except.ok _ => Except.ok body
    | Except.error e => Except.error e
  | FetchResult.netError msg => Except.error msg
  | FetchResult.timeout => Except.error "timeout"

/-- Embedding of `download_page_content` (fetch.py lines 79-87): any
exception from the attempt is caught, logged with the URL, and turned
into `None`; the second component is the list of log lines printed. -/
def download_page_content (url : String) (attempt : FetchResult) :
    Option String × List String :=
  match fetchText attempt with
  | Except.ok body => (some body, [])
  | Except.error e => (none, ["Error downloading page " ++ url ++ ": " ++ e])

/-! ### Page Pipeline (`download_page`, fetch.py lines 90-125)

The external collaborators of the pipeline are opaque total functions:
BeautifulSoup parse + `_process_elements` + serialization as one
HTML-to-HTML rewrite, readabilipy's `ret["content"]` as an optional
string (`none` models Python `None`), and markdownify as a converter.
The file system is a map from paths to contents, threaded explicitly;
a write overwrites whatever was at that path. -/

/-- Opaque external collaborators of the Page Pipeline. -/
structure Collaborators where
  rewriteHtml : String → String
  extractContent : String → Option String
  toMarkdown : String → String

/-- File-system state: which content, if any, each path holds. -/
def FileSys : Type := String → Option String

/-- Python `Path(output_dir) / filename` on POSIX. -/
def pathJoin (dir name : String) : String := dir ++ "/" ++ name

/-- The error-marker string returned by `download_page` (fetch.py line
112) when extraction yields no content. -/
def errorMarker : String := "<error>Page failed to be simplified from HTML</error>"

/-- Python falsiness of `ret["content"]` (fetch.py line 111): `None` or
the empty string. -/
def contentFalsy : Option String → Bool
  | none => true
  | some s => s = ""

/-- Embedding of `download_page` (fetch.py lines 90-125): fetch; a falsy
body aborts with `None`; rewrite the HTML; derive the filename, aborting
with `None` when underivable; extract readable content, returning the
error marker (writing nothing) when it is falsy; otherwise convert to
markdown, write the file, and return the converted content.  Returns the
outcome together with the file system after the call. -/
def download_page (ext : Collaborators) (url output_dir : String)
    (attempt : FetchResult) (fs : FileSys) : Option String × FileSys :=
  match (download_page_content url attempt).1 with
  | none => (none, fs)
  | some html_content =>
    if html_content = "" then (none, fs)
    else
      let updated_html := ext.rewriteHtml html_content
      match convert_url_to_filename url with
      | none => (none, fs)
      | some filename =>
        let filepath := pathJoin output_dir filename
        let extracted := ext.extractContent updated_html
        if contentFalsy extracted then (some errorMarker, fs)
        else
          let content := ext.toMarkdown (extracted.getD "")
          (some content, fun p => if p = filepath then some content else fs p)

/-! ### Crawl Orchestrator (`download`, fetch.py lines 141-200) -/

/-- The aggregation predicate of fetch.py line 189: an outcome counts as
a success exactly when it is a string (`Option.some`) and non-empty
(Python truthiness). -/
def isSuccess : Option String → Bool
  | some s => s ≠ ""
  | none => false

/-- Success tally of fetch.py line 189. -/
def countSuccessful (results : List (Option String)) : Nat :=
  (results.filter isSuccess).length

/-- Failure tally of fetch.py line 190: total minus successes. -/
def countFailed (results : List (Option String)) : Nat :=
  results.length - countSuccessful results

/-- Page Set of fetch.py line 171: the seed URL unioned with the links
discovered on the seed page. -/
def pageSet (base_url : String) (links : Finset String) : Finset String :=
  insert base_url links

/-- The list of pages the orchestrator fans out over (fetch.py line 185):
one task per element of the Page Set, enumerated in some order (Python
set iteration order is unspecified; a sorted enumeration stands for it). -/
def crawlPages (base_url : String) (links : Finset String) : List String :=
  (pageSet base_url links).sort (· ≤ ·)

/-- Fan-out and fan-in of fetch.py lines 185-186: run the per-page
pipeline on every page of the fixed Page Set and collect the outcomes.
The pipeline is a parameter: its outputs never feed back into the list
of pages. -/
def downloadAll (base_url : String) (links : Finset String)
    (pipeline : String → Option String) : List (Option String) :=
  (crawlPages base_url links).map pipeline

/-! ### Semaphore-bounded fan-out (fetch.py lines 175-186)

`download_with_semaphore` wraps each page pipeline in
`async with page_semaphore` where `page_semaphore` is
`asyncio.Semaphore(MAX_CONNECTIONS_PER_HOST)`.  The cooperative
interleaving is modelled as a transition system: each task is waiting,
running, or done; acquiring a slot needs a positive semaphore counter
and decrements it; finishing a task — whatever its outcome — increments
the counter again (`async with` releases on normal exit and on
exception alike). -/

/-- Phase of one `download_with_semaphore` task. -/
inductive TaskPhase where
  | waiting
  | running
  | done
  deriving DecidableEq

/-- State of the crawl fan-out: free semaphore slots plus every task's
phase. -/
structure CrawlState where
  avail : Nat
  tasks : List TaskPhase
  deriving DecidableEq

/-- Initial state: all semaphore slots free, every task still waiting. -/
def initState (n : Nat) : CrawlState :=
  ⟨MAX_CONNECTIONS_PER_HOST, List.replicate n TaskPhase.waiting⟩

/-- One scheduler step: a waiting task acquires a free slot and runs, or
a running task completes (with any outcome) and releases its slot. -/
inductive CrawlStep : CrawlState → CrawlState → Prop where
  | acquire (s : CrawlState) (i : Nat)
      (hw : s.tasks.get? i = some TaskPhase.waiting) (ha : 0 < s.avail) :
      CrawlStep s ⟨s.avail - 1, s.tasks.set i TaskPhase.running⟩
  | release (s : CrawlState) (i : Nat)
      (hr : s.tasks.get? i = some TaskPhase.running) :
      CrawlStep s ⟨s.avail + 1, s.tasks.set i TaskPhase.done⟩

/-- Reachability from the initial state by scheduler steps. -/
def Reaches (s t : CrawlState) : Prop := Relation.ReflTransGen CrawlStep s t

/-- Number of concurrently running page pipelines. -/
def runningCount (s : CrawlState) : Nat :=
  (s.tasks.filter (fun p => p = TaskPhase.running)).length

/-! ## Claims -/

/-- C1 (counterexample): the claim says an outcome equal to the
error-marker string contributes to the failure count; on the outcome
list `[some errorMarker]` the aggregation of fetch.py lines 189-190
counts one success and zero failures, because the marker is a non-empty
string. -/
theorem c1_marker_not_failure_counterexample :
    isSuccess (some errorMarker) = true ∧
    countSuccessful [some errorMarker] = 1 ∧
    countFailed [some errorMarker] = 0 := by
  refine ⟨by decide, by decide, by decide⟩

/-- C1 (amended): the aggregation counts an outcome as a success exactly
when it is a non-empty string, success count plus failure count equals
the number of pages, and an outcome equal to the error-marker string
contributes to the success count (not the failure count). -/
theorem c1_aggregation_amended (results : List (Option String)) :
    (∀ r : Option String, isSuccess r = true ↔ ∃ s, r = some s ∧ s ≠ "") ∧
    countSuccessful results + countFailed results = results.length ∧
    isSuccess (some errorMarker) = true := by
  refine ⟨?_, ?_, by decide⟩
  · intro r
    cases r with
    | none => simp [isSuccess]
    | some s => simp [isSuccess]
  · have h : countSuccessful results ≤ results.length :=
      List.length_filter_le _ _
    unfold countFailed
    omega

/-- C4 (counterexample): the claim says any non-2xx status yields the
no-content outcome, but `raise_for_status` raises only for status ≥ 400
(aiohttp semantics, fetch.py line 83): a delivered 304 response returns
its body text, not `none`. -/
theorem c4_non2xx_counterexample :
    download_page_content "https://example.test/p" (FetchResult.response 304 "cached") =
      (some "cached", []) ∧
    (download_page_content "https://example.test/p"
      (FetchResult.response 304 "cached")).1 ≠ none := by
  refine ⟨rfl, by decide⟩

/-- C4 (amended): the Page Fetcher never propagates an exception: every
exception of the attempt (network error, timeout, or the error raised
for a status ≥ 400 — not for every non-2xx status) is caught and turned
into `none` with a log line naming the URL, and every delivered
response with status < 400 (in particular every 2xx response) yields
its body text. -/
theorem c4_fetcher_error_containment (url : String) (attempt : FetchResult) :
    (∀ e, fetchText attempt = Except.error e →
      download_page_content url attempt =
        (none, ["Error downloading page " ++ url ++ ": " ++ e])) ∧
    (∀ status body, status < 400 →
      download_page_content url (FetchResult.response status body) = (some body, [])) ∧
    (∀ status body, 400 ≤ status →
      (download_page_content url (FetchResult.response status body)).1 = none) ∧
    (∀ msg, (download_page_content url (FetchResult.netError msg)).1 = none) ∧
    (download_page_content url FetchResult.timeout).1 = none := by
  refine ⟨?_, ?_, ?_, ?_, rfl⟩
  · intro e he
    unfold download_page_content
    rw [he]
  · intro status body h3
    have hnot : ¬ 400 ≤ status := by omega
    simp [download_page_content, fetchText, raise_for_status, hnot]
  · intro status body h4
    simp [download_page_content, fetchText, raise_for_status, h4]
  · intro msg
    rfl

/-- C4 (witness): concrete instances — a 200 response delivers its body,
a 404 response delivers no content, and a network error is logged with
the URL. -/
theorem c4_fetcher_error_containment_witness :
    download_page_content "https://example.test/p" (FetchResult.response 200 "<html>") =
      (some "<html>", []) ∧
    (download_page_content "https://example.test/p" (FetchResult.response 404 "nf")).1 = none ∧
    download_page_content "https://example.test/p" (FetchResult.netError "boom") =
      (none, ["Error downloading page https://example.test/p: boom"]) :=
  ⟨(c4_fetcher_error_containment "https://example.test/p"
      (FetchResult.response 200 "<html>")).2.1 200 "<html>" (by decide),
   (c4_fetcher_error_containment "https://example.test/p"
      (FetchResult.response 404 "nf")).2.2.1 404 "nf" (by decide),
   (c4_fetcher_error_containment "https://example.test/p"
      (FetchResult.netError "boom")).1 "boom" rfl⟩

/-- C5: when extraction on the rewritten HTML yields no content (Python
falsy), the Page Pipeline writes nothing — the file system is returned
untouched — and the outcome is the distinguishable error-marker string. -/
theorem c5_extraction_empty_marker (ext : Collaborators) (url output_dir : String)
    (attempt : FetchResult) (fs : FileSys) (html filename : String)
    (hfetch : (download_page_content url attempt).1 = some html)
    (hnz : html ≠ "")
    (hfn : convert_url_to_filename url = some filename)
    (hext : contentFalsy (ext.extractContent (ext.rewriteHtml html)) = true) :
    download_page ext url output_dir attempt fs = (some errorMarker, fs) := by
  unfold download_page
  rw [hfetch]
  simp only [if_neg hnz, hfn, hext, if_pos]

/-- C5 (witness): a concrete pipeline run whose extractor returns no
content yields the error marker and leaves the file system unchanged. -/
theorem c5_extraction_empty_marker_witness :
    download_page ⟨id, fun _ => none, id⟩ "https://example.test/2/the-omarchy-manual"
      "docs" (FetchResult.response 200 "<html>") (fun _ => none) =
      (some errorMarker, fun _ => none) :=
  c5_extraction_empty_marker ⟨id, fun _ => none, id⟩
    "https://example.test/2/the-omarchy-manual" "docs"
    (FetchResult.response 200 "<html>") (fun _ => none) "<html>" "toc.md"
    rfl (by decide) (by decide) rfl

/-- C9: whenever the Page Pipeline returns a success outcome other than
the error-marker string, the file named by the Filename Mapper for the
page's URL holds, in the resulting file system, exactly the returned
outcome string — whatever was there before. -/
theorem c9_outcome_matches_file (ext : Collaborators) (url output_dir : String)
    (attempt : FetchResult) (fs : FileSys) (c : String)
    (hout : (download_page ext url output_dir attempt fs).1 = some c)
    (hne : c ≠ errorMarker) :
    ∃ filename, convert_url_to_filename url = some filename ∧
      (download_page ext url output_dir attempt fs).2 (pathJoin output_dir filename) =
        some c := by
  unfold download_page at hout ⊢
  cases hfc : (download_page_content url attempt).1 with
  | none => simp [hfc] at hout
  | some html =>
    rw [hfc] at hout
    dsimp only at hout ⊢
    by_cases hhz : html = ""
    · rw [if_pos hhz] at hout; exact absurd hout (by simp)
    · rw [if_neg hhz] at hout ⊢
      cases hcv : convert_url_to_filename url with
      | none => rw [hcv] at hout; simp at hout
      | some filename =>
        rw [hcv] at hout
        dsimp only at hout ⊢
        by_cases hef : contentFalsy (ext.extractContent (ext.rewriteHtml html)) = true
        · rw [if_pos hef] at hout
          simp only [Option.some.injEq] at hout
          exact absurd hout.symm hne
        · rw [if_neg hef] at hout ⊢
          simp only [Option.some.injEq] at hout
          refine ⟨filename, rfl, ?_⟩
          simp [hout]

/-- C9 (witness): a concrete successful pipeline run over a file system
that already held other content at the target path: the outcome string
is exactly what the target file now holds. -/
theorem c9_outcome_matches_file_witness :
    (download_page ⟨id, some, id⟩ "https://example.test/2/the-omarchy-manual/install"
        "docs" (FetchResult.response 200 "<html>") (fun _ => some "OLD")).1 =
      some "<html>" ∧
    ∃ filename,
      convert_url_to_filename "https://example.test/2/the-omarchy-manual/install" =
        some filename ∧
      (download_page ⟨id, some, id⟩ "https://example.test/2/the-omarchy-manual/install"
          "docs" (FetchResult.response 200 "<html>") (fun _ => some "OLD")).2
        (pathJoin "docs" filename) = some "<html>" :=
  ⟨by decide,
   c9_outcome_matches_file ⟨id, some, id⟩
     "https://example.test/2/the-omarchy-manual/install" "docs"
     (FetchResult.response 200 "<html>") (fun _ => some "OLD") "<html>"
     (by decide) (by decide)⟩

/-- C10: a fetch that completes with a 2xx status but an empty body is
treated at the pipeline boundary exactly like a failure: the outcome is
`none`, no file is written, and the aggregation counts it as a failure. -/
theorem c10_empty_body_failure (ext : Collaborators) (url output_dir : String)
    (fs : FileSys) (status : Nat) (h2 : 200 ≤ status) (h3 : status < 300) :
    download_page ext url output_dir (FetchResult.response status "") fs = (none, fs) ∧
    isSuccess (download_page ext url output_dir (FetchResult.response status "") fs).1 =
      false := by
  have hnot : ¬ 400 ≤ status := by omega
  have hfc : (download_page_content url (FetchResult.response status "")).1 = some "" := by
    simp [download_page_content, fetchText, raise_for_status, hnot]
  have hmain : download_page ext url output_dir (FetchResult.response status "") fs =
      (none, fs) := by
    unfold download_page
    rw [hfc]
    simp
  exact ⟨hmain, by rw [hmain]; rfl⟩

/-- C10 (witness): a concrete 200-status empty-body fetch produces the
no-content outcome, leaves the file system untouched, and counts as a
failure. -/
theorem c10_empty_body_failure_witness :
    download_page ⟨id, some, id⟩ "https://example.test/2/the-omarchy-manual" "docs"
      (FetchResult.response 200 "") (fun _ => none) = (none, fun _ => none) ∧
    isSuccess (download_page ⟨id, some, id⟩ "https://example.test/2/the-omarchy-manual"
      "docs" (FetchResult.response 200 "") (fun _ => none)).1 = false :=
  c10_empty_body_failure ⟨id, some, id⟩ "https://example.test/2/the-omarchy-manual"
    "docs" (fun _ => none) 200 (by decide) (by decide)

/-- C6: for a seed page with discovered-link set `links`, the Page Set is
exactly `{seed} ∪ links` with set semantics (membership is being the
seed or a discovered link; the fan-out list has no duplicates and
carries exactly the Page Set), and the fan-out is a map of the per-page
pipeline over that fixed list — the pipeline's outputs never extend it,
so the number of outcomes equals the Page Set's size for every
pipeline. -/
theorem c6_page_set (base_url : String) (links : Finset String)
    (pipeline : String → Option String) :
    pageSet base_url links = {base_url} ∪ links ∧
    (∀ u, u ∈ pageSet base_url links ↔ u = base_url ∨ u ∈ links) ∧
    (crawlPages base_url links).Nodup ∧
    (crawlPages base_url links).toFinset = pageSet base_url links ∧
    downloadAll base_url links pipeline = (crawlPages base_url links).map pipeline ∧
    (downloadAll base_url links pipeline).length = (pageSet base_url links).card := by
  refine ⟨Finset.insert_eq _ _, fun u => Finset.mem_insert, Finset.sort_nodup _ _,
    Finset.sort_toFinset _ _, rfl, ?_⟩
  simp [downloadAll, crawlPages, Finset.length_sort]

/-- Helper for the semaphore invariant: marking a waiting task as running
adds one to the number of running tasks. -/
lemma runningFilter_set_acquire :
    ∀ (l : List TaskPhase) (i : Nat), l.get? i = some TaskPhase.waiting →
      ((l.set i TaskPhase.running).filter (fun p => p = TaskPhase.running)).length =
        (l.filter (fun p => p = TaskPhase.running)).length + 1 := by
  intro l
  induction l with
  | nil => intro i h; simp at h
  | cons hd tl ih =>
    intro i h
    cases i with
    | zero =>
      simp only [List.get?] at h
      cases h
      simp [List.set, List.filter_cons]
    | succ n =>
      simp only [List.get?] at h
      by_cases hhd : hd = TaskPhase.running
      · simp [List.set, List.filter_cons, hhd, ih n h]
      · simp [List.set, List.filter_cons, hhd, ih n h]

/-- Helper for the semaphore invariant: marking a running task as done
removes one from the number of running tasks. -/
lemma runningFilter_set_release :
    ∀ (l : List TaskPhase) (i : Nat), l.get? i = some TaskPhase.running →
      ((l.set i TaskPhase.done).filter (fun p => p = TaskPhase.running)).length + 1 =
        (l.filter (fun p => p = TaskPhase.running)).length := by
  intro l
  induction l with
  | nil => intro i h; simp at h
  | cons hd tl ih =>
    intro i h
    cases i with
    | zero =>
      simp only [List.get?] at h
      cases h
      simp [List.set, List.filter_cons]
    | succ n =>
      simp only [List.get?] at h
      by_cases hhd : hd = TaskPhase.running
      · simp [List.set, List.filter_cons, hhd, ih n h]
      · simp [List.set, List.filter_cons, hhd, ih n h]

/-- One scheduler step preserves the sum of running pipelines and free
semaphore slots. -/
lemma crawl_step_sum {s t : CrawlState} (h : CrawlStep s t) :
    runningCount t + t.avail = runningCount s + s.avail := by
  cases h with
  | acquire i hw ha =>
    have hc := runningFilter_set_acquire s.tasks i hw
    unfold runningCount
    dsimp only
    omega
  | release i hr =>
    have hc := runningFilter_set_release s.tasks i hr
    unfold runningCount
    dsimp only
    omega

/-- Every scheduler run preserves the sum of running pipelines and free
semaphore slots. -/
lemma crawl_sum_invariant {s t : CrawlState} (h : Reaches s t) :
    runningCount t + t.avail = runningCount s + s.avail := by
  induction h with
  | refl => rfl
  | tail _hst hstep ih => exact (crawl_step_sum hstep).trans ih

/-- C8: in every state reachable from the start of the fan-out, the
number of concurrently running page pipelines plus the free semaphore
slots equals the configured cap `MAX_CONNECTIONS_PER_HOST` (4), so the
number of concurrently running pipelines never exceeds the cap — for a
Page Set of any size `n`, and with slots released on completion
regardless of outcome. -/
theorem c8_concurrency_cap (n : Nat) (t : CrawlState)
    (h : Reaches (initState n) t) :
    runningCount t + t.avail = MAX_CONNECTIONS_PER_HOST ∧
    runningCount t ≤ MAX_CONNECTIONS_PER_HOST := by
  have hs := crawl_sum_invariant h
  have hinit : runningCount (initState n) = 0 := by
    simp [runningCount, initState, List.filter_replicate]
  have havail : (initState n).avail = MAX_CONNECTIONS_PER_HOST := rfl
  rw [hinit, havail] at hs
  omega

/-- C8 (witness): from a fan-out over two pages, the state after one
task acquires a slot, runs, and completes satisfies the cap invariant. -/
theorem c8_concurrency_cap_witness :
    runningCount ⟨4, [TaskPhase.done, TaskPhase.waiting]⟩ +
      (⟨4, [TaskPhase.done, TaskPhase.waiting]⟩ : CrawlState).avail =
      MAX_CONNECTIONS_PER_HOST ∧
    runningCount ⟨4, [TaskPhase.done, TaskPhase.waiting]⟩ ≤
      MAX_CONNECTIONS_PER_HOST :=
  c8_concurrency_cap 2 ⟨4, [TaskPhase.done, TaskPhase.waiting]⟩
    (Relation.ReflTransGen.tail
      (Relation.ReflTransGen.tail Relation.ReflTransGen.refl
        (CrawlStep.acquire (initState 2) 0 rfl (by decide)))
      (CrawlStep.release ⟨3, [TaskPhase.running, TaskPhase.waiting]⟩ 0 rfl))

/-! ### Lemmas about path splitting, for the Filename Mapper and the
rewrite idempotence claims -/

/-- Splitting never yields the empty list of segments. -/
lemma splitChar_ne_nil (c : Char) : ∀ l, splitChar c l ≠ [] := by
  intro l
  induction l with
  | nil => simp [splitChar]
  | cons x xs ih =>
    unfold splitChar
    cases h : splitChar c xs with
    | nil => simp
    | cons hd tl => by_cases hx : x = c <;> simp [hx]

/-- No segment produced by splitting contains the separator. -/
lemma splitChar_no_sep (c : Char) : ∀ l p, p ∈ splitChar c l → c ∉ p := by
  intro l
  induction l with
  | nil =>
    intro p hp
    simp [splitChar] at hp
    simp [hp]
  | cons x xs ih =>
    intro p hp
    cases h : splitChar c xs with
    | nil => exact absurd h (splitChar_ne_nil c xs)
    | cons hd tl =>
      simp only [splitChar, h] at hp
      by_cases hx : x = c
      · rw [if_pos hx] at hp
        rcases List.mem_cons.1 hp with h1 | h2
        · simp [h1]
        · exact ih p (h ▸ h2)
      · rw [if_neg hx] at hp
        rcases List.mem_cons.1 hp with h1 | h2
        · subst h1
          intro hmem
          rcases List.mem_cons.1 hmem with h1 | h2
          · exact hx h1.symm
          · exact ih hd (h ▸ List.mem_cons_self hd tl) h2
        · exact ih p (h ▸ List.mem_cons.2 (Or.inr h2))

/-- Splitting a separator-free list yields that single segment. -/
lemma splitChar_of_not_mem {c : Char} : ∀ {l}, c ∉ l → splitChar c l = [l] := by
  intro l
  induction l with
  | nil => intro _; rfl
  | cons x xs ih =>
    intro h
    have hx : x ≠ c := fun he => h (he ▸ List.mem_cons_self x xs)
    have hxs : c ∉ xs := fun hm => h (List.mem_cons.2 (Or.inr hm))
    simp only [splitChar, ih hxs]
    rw [if_neg hx]

/-- Splitting after a leading separator prepends an empty segment. -/
lemma splitChar_cons_sep (c : Char) (l : List Char) :
    splitChar c (c :: l) = [] :: splitChar c l := by
  cases h : splitChar c l with
  | nil => exact absurd h (splitChar_ne_nil c l)
  | cons hd tl => simp [splitChar, h]

/-- Prepending separator-free characters extends the first segment. -/
lemma splitChar_append_left (c : Char) {r : List Char} {hd : List Char}
    {tl : List (List Char)} (hr : splitChar c r = hd :: tl) :
    ∀ l1, c ∉ l1 → splitChar c (l1 ++ r) = (l1 ++ hd) :: tl := by
  intro l1
  induction l1 with
  | nil => intro _; simpa using hr
  | cons x xs ih =>
    intro h
    have hx : x ≠ c := fun he => h (he ▸ List.mem_cons_self x xs)
    have hxs : c ∉ xs := fun hm => h (List.mem_cons.2 (Or.inr hm))
    have hrec := ih hxs
    show splitChar c (x :: (xs ++ r)) = _
    simp only [splitChar, hrec]
    rw [if_neg hx]
    simp

/-- Splitting a three-segment path on `/` yields the three segments. -/
lemma splitChar_three {s1 s2 s3 : List Char}
    (h1 : '/' ∉ s1) (h2 : '/' ∉ s2) (h3 : '/' ∉ s3) :
    splitChar '/' (s1 ++ '/' :: (s2 ++ '/' :: s3)) = [s1, s2, s3] := by
  have e3 : splitChar '/' s3 = [s3] := splitChar_of_not_mem h3
  have e2 : splitChar '/' ('/' :: s3) = [] :: [s3] := by
    rw [splitChar_cons_sep, e3]
  have e1 : splitChar '/' (s2 ++ '/' :: s3) = (s2 ++ []) :: [s3] :=
    splitChar_append_left '/' e2 s2 h2
  rw [List.append_nil] at e1
  have e0 : splitChar '/' ('/' :: (s2 ++ '/' :: s3)) = [] :: [s2, s3] := by
    rw [splitChar_cons_sep, e1]
  have := splitChar_append_left '/' e0 s1 h1
  rw [List.append_nil] at this
  exact this

/-- C2: the Filename Mapper returns `toc.md` when the URL's stripped path
is the manual root, no filename when the stripped path is empty, the
last segment plus `.md` for any other well-formed stripped path
`a/b/c`, and is deterministic. -/
theorem c2_filename_mapper (url : String) :
    (strippedPath url = manualRootStripped →
      convert_url_to_filename url = some "toc.md") ∧
    (strippedPath url = "" → convert_url_to_filename url = none) ∧
    (∀ s1 s2 s3 : List Char,
      s1 ≠ [] → s2 ≠ [] → s3 ≠ [] →
      '/' ∉ s1 → '/' ∉ s2 → '/' ∉ s3 →
      s1 ≠ ['.'] → s2 ≠ ['.'] → s3 ≠ ['.'] →
      (strippedPath url).toList = s1 ++ '/' :: (s2 ++ '/' :: s3) →
      strippedPath url ≠ manualRootStripped →
      convert_url_to_filename url = some ((⟨s3⟩ : String) ++ ".md")) ∧
    (∀ url2, url = url2 →
      convert_url_to_filename url = convert_url_to_filename url2) := by
  refine ⟨?_, ?_, ?_, ?_⟩
  · intro h
    simp only [convert_url_to_filename]
    rw [h]
    decide
  · intro h
    simp only [convert_url_to_filename]
    rw [h]
    decide
  · intro s1 s2 s3 hn1 hn2 hn3 hs1 hs2 hs3 hd1 hd2 hd3 hlist hroot
    have hne : strippedPath url ≠ "" := by
      intro he
      rw [he] at hlist
      cases s1 with
      | nil => exact hn1 rfl
      | cons a b => simp at hlist
    have hname : posixName (strippedPath url) = ⟨s3⟩ := by
      unfold posixName pathParts
      rw [hlist, splitChar_three hs1 hs2 hs3]
      have p1 : (s1 ≠ [] && s1 ≠ ['.']) = true := by simp [hn1, hd1]
      have p2 : (s2 ≠ [] && s2 ≠ ['.']) = true := by simp [hn2, hd2]
      have p3 : (s3 ≠ [] && s3 ≠ ['.']) = true := by simp [hn3, hd3]
      simp only [List.filter_cons, p1, p2, p3, if_pos, List.filter_nil]
      rfl
    simp only [convert_url_to_filename]
    rw [if_neg hne, if_neg hroot, hname]
  · intro url2 h
    rw [h]

/-- C2 (witness): concrete URLs exercising the three branches — the
manual root maps to `toc.md`, a three-segment path maps to its last
segment plus `.md`, and a URL with an empty stripped path maps to no
filename. -/
theorem c2_filename_mapper_witness :
    convert_url_to_filename "https://example.test/2/the-omarchy-manual" =
      some "toc.md" ∧
    convert_url_to_filename "https://example.test/2/the-omarchy-manual/install" =
      some "install.md" ∧
    convert_url_to_filename "https://example.test/" = none :=
  ⟨(c2_filename_mapper "https://example.test/2/the-omarchy-manual").1 (by decide),
   (c2_filename_mapper "https://example.test/2/the-omarchy-manual/install").2.2.1
     "2".toList "the-omarchy-manual".toList "install".toList
     (by decide) (by decide) (by decide) (by decide) (by decide) (by decide)
     (by decide) (by decide) (by decide) (by decide) (by decide),
   (c2_filename_mapper "https://example.test/").2.1 (by decide)⟩

/-! ### Lemmas about the HTML Processor -/

/-- The rewritten hrefs of one pass are exactly the per-anchor rewrite
mapped over the anchors, in order. -/
lemma processElements_snd (base : String) : ∀ anchors,
    (processElements base anchors).2 = anchors.map rewriteHref := by
  intro anchors
  induction anchors with
  | nil => rfl
  | cons a t ih =>
    by_cases hi : isInternal a = true
    · simp [processElements, rewriteHref, hi, ih]
    · simp [processElements, rewriteHref, hi, ih]

/-- The discovered-link set of one pass is exactly the base-resolved
internal anchors; anchors failing the internal predicate contribute
nothing. -/
lemma processElements_fst (base : String) : ∀ anchors,
    (processElements base anchors).1 =
      ((anchors.filter (fun h => isInternal h)).map (urljoinRootRel base)).toFinset := by
  intro anchors
  induction anchors with
  | nil => rfl
  | cons a t ih =>
    by_cases hi : isInternal a = true
    · simp [processElements, List.filter_cons, hi, ih]
    · simp [processElements, List.filter_cons, hi, ih]

/-- C3: for every anchor list, an href is in the discovered-link set iff
it is the base-resolution of an internal anchor (in particular a
non-internal anchor contributes nothing); the rewritten hrefs are the
per-anchor rewrite in order; and the per-anchor rewrite sends the manual
root to `toc.md`, any other internal href to the Filename Mapper's
output when derivable and to itself otherwise, and every non-internal
href to itself. -/
theorem c3_processor_links_and_rewrites (base : String) (anchors : List String) :
    (parse_and_extract base anchors).internal_links =
      ((anchors.filter (fun h => isInternal h)).map (urljoinRootRel base)).toFinset ∧
    (∀ h, h ∈ anchors → isInternal h = true →
      urljoinRootRel base h ∈ (parse_and_extract base anchors).internal_links) ∧
    (parse_and_extract base anchors).updatedHrefs = anchors.map rewriteHref ∧
    (∀ h, isInternal h = true → h = manualRootHref → rewriteHref h = "toc.md") ∧
    (∀ h f, isInternal h = true → h ≠ manualRootHref →
      convert_url_to_filename h = some f → rewriteHref h = f) ∧
    (∀ h, isInternal h = true → h ≠ manualRootHref →
      convert_url_to_filename h = none → rewriteHref h = h) ∧
    (∀ h, isInternal h = false → rewriteHref h = h) := by
  refine ⟨processElements_fst base anchors, ?_, processElements_snd base anchors,
    ?_, ?_, ?_, ?_⟩
  · intro h hmem hi
    show urljoinRootRel base h ∈ (processElements base anchors).1
    rw [processElements_fst base anchors]
    rw [List.mem_toFinset]
    exact List.mem_map_of_mem _ (List.mem_filter.2 ⟨hmem, hi⟩)
  · intro h hi hroot
    subst hroot
    decide
  · intro h f hi hroot hc
    simp [rewriteHref, rewriteInternal, hi, hroot, hc]
  · intro h hi hroot hc
    simp [rewriteHref, rewriteInternal, hi, hroot, hc]
  · intro h hi
    simp [rewriteHref, hi]

/-- C3 (witness): the literal scenario of the spec — the internal anchor
is discovered (resolved against the base) and rewritten to
`install.md`, the manual-root anchor is rewritten to `toc.md`, and the
external anchor is left unmodified. -/
theorem c3_processor_links_and_rewrites_witness :
    urljoinRootRel "https://example.test/2/the-omarchy-manual"
        "/2/the-omarchy-manual/install" ∈
      (parse_and_extract "https://example.test/2/the-omarchy-manual"
        ["/2/the-omarchy-manual/install", "https://other.test/x"]).internal_links ∧
    rewriteHref "/2/the-omarchy-manual" = "toc.md" ∧
    rewriteHref "/2/the-omarchy-manual/install" = "install.md" ∧
    rewriteHref "https://other.test/x" = "https://other.test/x" :=
  ⟨(c3_processor_links_and_rewrites "https://example.test/2/the-omarchy-manual"
      ["/2/the-omarchy-manual/install", "https://other.test/x"]).2.1
      "/2/the-omarchy-manual/install" (by simp) (by decide),
   (c3_processor_links_and_rewrites "https://example.test/2/the-omarchy-manual"
      []).2.2.2.1 "/2/the-omarchy-manual" (by decide) rfl,
   (c3_processor_links_and_rewrites "https://example.test/2/the-omarchy-manual"
      []).2.2.2.2.1 "/2/the-omarchy-manual/install" "install.md"
      (by decide) (by decide) (by decide),
   (c3_processor_links_and_rewrites "https://example.test/2/the-omarchy-manual"
      []).2.2.2.2.2.2 "https://other.test/x" (by decide)⟩

/-! ### Lemmas for rewrite idempotence -/

/-- A one-character list is a prefix exactly when it is the head. -/
lemma isPrefixOf_single (c : Char) (l : List Char) :
    List.isPrefixOf [c] l = true ↔ ∃ t, l = c :: t := by
  cases l with
  | nil => simp [List.isPrefixOf]
  | cons x xs =>
    simp only [List.isPrefixOf, List.isPrefixOf_nil_left, Bool.and_true, beq_iff_eq,
      List.cons.injEq]
    constructor
    · intro h
      exact ⟨xs, h.symm, rfl⟩
    · rintro ⟨t, h1, _⟩
      exact h1.symm

/-- Every component produced by `pathParts` is non-empty and free of
separators. -/
lemma pathParts_mem {l p : List Char} (hp : p ∈ pathParts l) :
    '/' ∉ p ∧ p ≠ [] := by
  unfold pathParts at hp
  have h1 := List.mem_filter.1 hp
  refine ⟨splitChar_no_sep '/' l p h1.1, ?_⟩
  have h2 := h1.2
  simp at h2
  exact h2.1

/-- Whatever filename the Filename Mapper produces, it never starts with
a slash: it is either `toc.md` or a separator-free final path component
followed by `.md`. -/
lemma convert_no_slash {url f : String}
    (h : convert_url_to_filename url = some f) : pyStartsWith "/" f = false := by
  simp only [convert_url_to_filename] at h
  by_cases h1 : strippedPath url = ""
  · rw [if_pos h1] at h
    simp at h
  · rw [if_neg h1] at h
    by_cases h2 : strippedPath url = manualRootStripped
    · rw [if_pos h2] at h
      simp only [Option.some.injEq] at h
      rw [← h]
      decide
    · rw [if_neg h2] at h
      simp only [Option.some.injEq] at h
      rw [← h]
      cases hg : (pathParts (strippedPath url).toList).getLast? with
      | none =>
        have hpn : posixName (strippedPath url) = "" := by
          unfold posixName
          rw [hg]
        rw [hpn]
        decide
      | some part =>
        have hpn : posixName (strippedPath url) = ⟨part⟩ := by
          unfold posixName
          rw [hg]
        rw [hpn]
        have hmem := List.mem_of_getLast?_eq_some hg
        obtain ⟨hnos, hne⟩ := pathParts_mem hmem
        cases part with
        | nil => exact absurd rfl hne
        | cons c0 cs =>
          have hc0 : c0 ≠ '/' := fun he => hnos (he ▸ List.mem_cons_self c0 cs)
          show List.isPrefixOf ['/'] (c0 :: (cs ++ ".md".data)) = false
          simp only [List.isPrefixOf, List.isPrefixOf_nil_left, Bool.and_true,
            beq_eq_false_iff_ne, ne_eq]
          exact fun he => hc0 he.symm

/-- A string that does not start with a slash is not an internal href. -/
lemma isInternal_false_of_no_slash {s : String}
    (h : pyStartsWith "/" s = false) : isInternal s = false := by
  simp [isInternal, h]

/-- A non-internal href is left unmodified by the rewrite. -/
lemma rewriteHref_of_not_internal {s : String}
    (h : isInternal s = false) : rewriteHref s = s := by
  simp [rewriteHref, h]

/-- Whenever the rewrite changes an href, the result does not start with
a slash. -/
lemma rewriteHref_no_slash {h : String} (hne : rewriteHref h ≠ h) :
    pyStartsWith "/" (rewriteHref h) = false := by
  by_cases hi : isInternal h = true
  · rw [rewriteHref, if_pos hi] at hne ⊢
    by_cases hr : h = manualRootHref
    · rw [rewriteInternal, if_pos hr]
      decide
    · rw [rewriteInternal, if_neg hr] at hne ⊢
      cases hc : convert_url_to_filename h with
      | none => rw [hc] at hne; exact absurd rfl hne
      | some f => exact convert_no_slash hc
  · have hi' : isInternal h = false := by
      cases hb : isInternal h
      · rfl
      · exact absurd hb hi
    exact absurd (rewriteHref_of_not_internal hi') hne

/-- The per-anchor rewrite is idempotent. -/
lemma rewriteHref_idem (h : String) :
    rewriteHref (rewriteHref h) = rewriteHref h := by
  by_cases hne : rewriteHref h = h
  · rw [hne, hne]
  · exact rewriteHref_of_not_internal
      (isInternal_false_of_no_slash (rewriteHref_no_slash hne))

/-- C7: the HTML Processor's rewrite is idempotent on its own output —
a second pass over the rewritten hrefs returns them unchanged — and
every href the rewrite changed no longer starts with `/`, hence no
longer satisfies the internal-link predicate, hence is a fixed point of
a further rewrite. -/
theorem c7_rewrite_idempotent (base : String) (anchors : List String) :
    (parse_and_extract base
        ((parse_and_extract base anchors).updatedHrefs)).updatedHrefs =
      (parse_and_extract base anchors).updatedHrefs ∧
    (∀ h, rewriteHref h ≠ h →
      pyStartsWith "/" (rewriteHref h) = false ∧
      isInternal (rewriteHref h) = false ∧
      rewriteHref (rewriteHref h) = rewriteHref h) := by
  constructor
  · show (processElements base (processElements base anchors).2).2 =
      (processElements base anchors).2
    rw [processElements_snd, processElements_snd, List.map_map]
    exact List.map_congr_left (fun a _ => by
      simp only [Function.comp_apply]
      exact rewriteHref_idem a)
  · intro h hne
    exact ⟨rewriteHref_no_slash hne,
      isInternal_false_of_no_slash (rewriteHref_no_slash hne),
      rewriteHref_idem h⟩

/-- C7 (witness): a rewritten anchor — `install.md`, produced from an
internal href — does not start with `/`, fails the internal predicate,
and survives a second rewrite unchanged. -/
theorem c7_rewrite_idempotent_witness :
    rewriteHref "/2/the-omarchy-manual/install" ≠ "/2/the-omarchy-manual/install" ∧
    (pyStartsWith "/" (rewriteHref "/2/the-omarchy-manual/install") = false ∧
     isInternal (rewriteHref "/2/the-omarchy-manual/install") = false ∧
     rewriteHref (rewriteHref "/2/the-omarchy-manual/install") =
       rewriteHref "/2/the-omarchy-manual/install") :=
  ⟨by decide,
   (c7_rewrite_idempotent "https://example.test/2/the-omarchy-manual" []).2
     "/2/the-omarchy-manual/install" (by decide)⟩

end FetchDocs
